import Mathlib

/-!
Verification development for the dataset-miner mining pipeline.

Shallow embedding of the core components of `src/dataset_miner`:
the sliding-window rate limiter (`rate_limiter.py`), the cost ledger
(`cost_analyzer.py`), JSON extraction and record formatting
(`llm_utils.py`), verification classification (`verification.py`),
and the per-file chunk loop with incremental persistence
(`file_processor.py`, `cli.py`).

Python strings are modelled as `List Char`; wall-clock time and money
as exact rationals `ℚ`; the external collaborators (tokenizer, model
backend) as function parameters; `json.loads` as a strict recursive
descent parser over the object/array/string/integer/bool/null fragment
of JSON.
-/

namespace DatasetMiner

/-! ## Python string primitives -/

/-- Whitespace recognised by Python `str.strip()`. -/
def isPySpace (c : Char) : Bool :=
  c == ' ' || c == '\t' || c == '\n' || c == '\r' || c == '\x0b' || c == '\x0c'

/-- Python `str.strip()`: drop whitespace from both ends. -/
def pyStrip (s : List Char) : List Char :=
  ((s.dropWhile isPySpace).reverse.dropWhile isPySpace).reverse

/-- Python `str.upper()` (ASCII fragment). -/
def pyUpper (s : List Char) : List Char :=
  s.map Char.toUpper

/-- Python `s.startswith(pre)`. -/
def pyStartswith (s pre : List Char) : Bool :=
  pre.isPrefixOf s

/-! ## JSON values and a model of `json.loads`

`json.loads` is Python-stdlib code, a collaborator of this repository.
We model the fragment it shares with this pipeline's data: objects,
arrays, strings, integer numerals, booleans and null. -/

/-- A parsed JSON value (integer-only numerics). -/
inductive JsonValue where
  | null : JsonValue
  | bool (b : Bool) : JsonValue
  | num (n : Int) : JsonValue
  | str (s : List Char) : JsonValue
  | arr (elems : List JsonValue) : JsonValue
  | obj (members : List (List Char × JsonValue)) : JsonValue

/-- Whitespace recognised between JSON tokens by `json.loads`. -/
def isJsonWs (c : Char) : Bool :=
  c == ' ' || c == '\t' || c == '\n' || c == '\r'

/-- Skip JSON inter-token whitespace. -/
def skipJsonWs (s : List Char) : List Char :=
  s.dropWhile isJsonWs

/-- Numeric value of a hexadecimal digit. -/
def hexDigitVal (c : Char) : Option ℕ :=
  if c.isDigit then some (c.toNat - '0'.toNat)
  else if 'a' ≤ c ∧ c ≤ 'f' then some (c.toNat - 'a'.toNat + 10)
  else if 'A' ≤ c ∧ c ≤ 'F' then some (c.toNat - 'A'.toNat + 10)
  else none

/-- Value of a string of decimal digits. -/
def digitsToNat (ds : List Char) : ℕ :=
  ds.foldl (fun acc c => acc * 10 + (c.toNat - '0'.toNat)) 0

/-- Parse a run of decimal digits (at least one). -/
def parseDigits (s : List Char) : Option (ℕ × List Char) :=
  let ds := s.takeWhile Char.isDigit
  if ds.isEmpty then none else some (digitsToNat ds, s.dropWhile Char.isDigit)

/-- Parse the remainder of a JSON string literal, after the opening
quote; returns the decoded characters and the rest of the input. -/
def parseStringRest : ℕ → List Char → Option (List Char × List Char)
  | 0, _ => none
  | Nat.succ fuel, s =>
    match s with
    | [] => none
    | '"' :: rest => some ([], rest)
    | '\\' :: esc =>
      match esc with
      | '"' :: r => (parseStringRest fuel r).map (fun p => ('"' :: p.1, p.2))
      | '\\' :: r => (parseStringRest fuel r).map (fun p => ('\\' :: p.1, p.2))
      | '/' :: r => (parseStringRest fuel r).map (fun p => ('/' :: p.1, p.2))
      | 'b' :: r => (parseStringRest fuel r).map (fun p => ('\x08' :: p.1, p.2))
      | 'f' :: r => (parseStringRest fuel r).map (fun p => ('\x0c' :: p.1, p.2))
      | 'n' :: r => (parseStringRest fuel r).map (fun p => ('\n' :: p.1, p.2))
      | 'r' :: r => (parseStringRest fuel r).map (fun p => ('\r' :: p.1, p.2))
      | 't' :: r => (parseStringRest fuel r).map (fun p => ('\t' :: p.1, p.2))
      | 'u' :: a :: b :: c :: d :: r =>
        match hexDigitVal a, hexDigitVal b, hexDigitVal c, hexDigitVal d with
        | some va, some vb, some vc, some vd =>
          (parseStringRest fuel r).map
            (fun p => (Char.ofNat (((va * 16 + vb) * 16 + vc) * 16 + vd) :: p.1, p.2))
        | _, _, _, _ => none
      | _ => none
    | c :: rest =>
      if c.toNat < 32 then none
      else (parseStringRest fuel rest).map (fun p => (c :: p.1, p.2))

mutual

/-- Parse one JSON value, returning it together with the unconsumed rest. -/
def parseValue : ℕ → List Char → Option (JsonValue × List Char)
  | 0, _ => none
  | Nat.succ fuel, s =>
    match skipJsonWs s with
    | '\x7b' :: rest =>
      match skipJsonWs rest with
      | '\x7d' :: r2 => some (JsonValue.obj [], r2)
      | r => (parseMembers fuel r).map (fun p => (JsonValue.obj p.1, p.2))
    | '[' :: rest =>
      match skipJsonWs rest with
      | ']' :: r2 => some (JsonValue.arr [], r2)
      | r => (parseElems fuel r).map (fun p => (JsonValue.arr p.1, p.2))
    | '"' :: rest => (parseStringRest fuel rest).map (fun p => (JsonValue.str p.1, p.2))
    | 't' :: 'r' :: 'u' :: 'e' :: rest => some (JsonValue.bool true, rest)
    | 'f' :: 'a' :: 'l' :: 's' :: 'e' :: rest => some (JsonValue.bool false, rest)
    | 'n' :: 'u' :: 'l' :: 'l' :: rest => some (JsonValue.null, rest)
    | '-' :: rest => (parseDigits rest).map (fun p => (JsonValue.num (-(p.1 : Int)), p.2))
    | c :: rest =>
      if c.isDigit then (parseDigits (c :: rest)).map (fun p => (JsonValue.num (p.1 : Int), p.2))
      else none
    | [] => none

/-- Parse the elements of a non-empty JSON array, up to and including
the closing bracket. -/
def parseElems : ℕ → List Char → Option (List JsonValue × List Char)
  | 0, _ => none
  | Nat.succ fuel, s =>
    match parseValue fuel s with
    | none => none
    | some (v, r1) =>
      match skipJsonWs r1 with
      | ',' :: r2 => (parseElems fuel r2).map (fun p => (v :: p.1, p.2))
      | ']' :: r2 => some ([v], r2)
      | _ => none

/-- Parse the members of a non-empty JSON object, up to and including
the closing brace. -/
def parseMembers : ℕ → List Char → Option (List (List Char × JsonValue) × List Char)
  | 0, _ => none
  | Nat.succ fuel, s =>
    match skipJsonWs s with
    | '"' :: r =>
      match parseStringRest fuel r with
      | none => none
      | some (key, r1) =>
        match skipJsonWs r1 with
        | ':' :: r2 =>
          match parseValue fuel r2 with
          | none => none
          | some (v, r3) =>
            match skipJsonWs r3 with
            | ',' :: r4 => (parseMembers fuel r4).map (fun p => ((key, v) :: p.1, p.2))
            | '\x7d' :: r4 => some ([(key, v)], r4)
            | _ => none
        | _ => none
    | _ => none

end

/-- Model of `json.loads`: parse one document and require the whole
input (modulo trailing whitespace) to be consumed. -/
def json_loads (s : List Char) : Option JsonValue :=
  match parseValue (2 * s.length + 2) s with
  | some (v, rest) => if (skipJsonWs rest).isEmpty then some v else none
  | none => none

/-! ## Response extraction (`llm_utils.extract_json_from_response`)

`re.findall(r"\[[\s\S]*\]", response)` with a greedy quantifier yields
at most one match: the span from the first left bracket through the
last right bracket of the whole text (after that last right bracket no
further right bracket remains, so no second match can start). -/

/-- Model of `re.findall` for the pattern used by the source: the single
greedy span from the first left bracket through the last right bracket,
when a right bracket occurs after the first left bracket. -/
def findallGreedyBrackets (s : List Char) : List (List Char) :=
  let m := ((s.dropWhile (fun c => c != '[')).reverse.dropWhile (fun c => c != ']')).reverse
  if m.isEmpty then [] else [m]

/-- Translation of `extract_json_from_response`: parse each regex match;
a parsed list contributes its elements, a parsed dict contributes
itself, a failed parse is logged and discarded. -/
def extract_json_from_response (response : List Char) : List JsonValue :=
  let json_matches := findallGreedyBrackets response
  json_matches.foldl
    (fun results json_str =>
      match json_loads json_str with
      | some (JsonValue.arr elems) => results ++ elems
      | some (JsonValue.obj members) => results ++ [JsonValue.obj members]
      | some _ => results
      | none => results)
    []

/-! ## Record formatting (`llm_utils.format_alpaca_dataset`) -/

/-- Python `dict.get(key, default)` over an association list. -/
def dictGet (members : List (List Char × JsonValue)) (key : List Char)
    (dflt : JsonValue) : JsonValue :=
  match members.find? (fun kv => kv.1 == key) with
  | some kv => kv.2
  | none => dflt

/-- Translation of `format_alpaca_dataset`: build one
instruction/input/output record per element; `dict.get` defaults to the
empty string for a missing key; a non-dict element raises inside the
loop body and the `except` branch skips it. -/
def format_alpaca_dataset (qa_pairs : List JsonValue) : List JsonValue :=
  qa_pairs.foldl
    (fun formatted_data qa =>
      match qa with
      | JsonValue.obj kvs =>
        formatted_data ++ [JsonValue.obj
          [("instruction".data, dictGet kvs "instruction".data (JsonValue.str [])),
           ("input".data, dictGet kvs "input".data (JsonValue.str [])),
           ("output".data, dictGet kvs "output".data (JsonValue.str []))]]
      | _ => formatted_data)
    []

/-! ## Cost ledger (`cost_analyzer.py`)

Token counts are naturals; prices and costs are modelled as exact
rationals (the source accumulates Python floats). The tokenizer
(`tiktoken`) is an external collaborator and appears in later
definitions as a function parameter. -/

/-- State of a `CostAnalyzer` instance. -/
structure CostAnalyzer where
  input_price_per_1m_tokens : ℚ
  output_price_per_1m_tokens : ℚ
  total_input_tokens : ℕ
  total_output_tokens : ℕ
  total_input_cost : ℚ
  total_output_cost : ℚ
  total_verification_tokens : ℕ
  total_verification_cost : ℚ
deriving DecidableEq

/-- Translation of `CostAnalyzer.__init__`: all counters start at zero. -/
def CostAnalyzer.init (input_price output_price : ℚ) : CostAnalyzer :=
  { input_price_per_1m_tokens := input_price
    output_price_per_1m_tokens := output_price
    total_input_tokens := 0
    total_output_tokens := 0
    total_input_cost := 0
    total_output_cost := 0
    total_verification_tokens := 0
    total_verification_cost := 0 }

/-- Translation of `CostAnalyzer.calculate_cost`. -/
def CostAnalyzer.calculate_cost (ca : CostAnalyzer) (input_tokens output_tokens : ℕ) :
    ℚ × ℚ :=
  ((input_tokens : ℚ) / 1000000 * ca.input_price_per_1m_tokens,
   (output_tokens : ℚ) / 1000000 * ca.output_price_per_1m_tokens)

/-- Translation of `CostAnalyzer.add_usage`: returns the updated state
together with the pair of per-call costs the source returns. -/
def CostAnalyzer.add_usage (ca : CostAnalyzer) (input_tokens output_tokens : ℕ) :
    CostAnalyzer × ℚ × ℚ :=
  let costs := ca.calculate_cost input_tokens output_tokens
  ({ ca with
      total_input_tokens := ca.total_input_tokens + input_tokens
      total_output_tokens := ca.total_output_tokens + output_tokens
      total_input_cost := ca.total_input_cost + costs.1
      total_output_cost := ca.total_output_cost + costs.2 },
   costs.1, costs.2)

/-- Translation of `CostAnalyzer.add_verification_usage`. -/
def CostAnalyzer.add_verification_usage (ca : CostAnalyzer)
    (input_tokens output_tokens : ℕ) : CostAnalyzer × ℚ :=
  let costs := ca.calculate_cost input_tokens output_tokens
  ({ ca with
      total_verification_tokens := ca.total_verification_tokens + (input_tokens + output_tokens)
      total_verification_cost := ca.total_verification_cost + (costs.1 + costs.2) },
   costs.1 + costs.2)

/-- Snapshot returned by `CostAnalyzer.get_summary`. -/
structure UsageSummary where
  total_input_tokens : ℕ
  total_output_tokens : ℕ
  total_tokens : ℕ
  total_input_cost : ℚ
  total_output_cost : ℚ
  total_cost : ℚ
  total_verification_tokens : ℕ
  total_verification_cost : ℚ
  grand_total_cost : ℚ
deriving DecidableEq

/-- Translation of `CostAnalyzer.get_summary`: a pure read of the
counters (it mutates nothing, being a plain function of the state). -/
def CostAnalyzer.get_summary (ca : CostAnalyzer) : UsageSummary :=
  { total_input_tokens := ca.total_input_tokens
    total_output_tokens := ca.total_output_tokens
    total_tokens := ca.total_input_tokens + ca.total_output_tokens
    total_input_cost := ca.total_input_cost
    total_output_cost := ca.total_output_cost
    total_cost := ca.total_input_cost + ca.total_output_cost
    total_verification_tokens := ca.total_verification_tokens
    total_verification_cost := ca.total_verification_cost
    grand_total_cost := ca.total_input_cost + ca.total_output_cost + ca.total_verification_cost }

/-! ## Rate limiter (`rate_limiter.py`)

Wall-clock time is modelled as `ℚ`. `time.sleep(sleep_time)` advances
the clock by exactly `sleep_time`; `RateLimit.wait` returns the updated
state together with the clock value after any sleep. Indexing
`self.entries[0]` with an empty deque raises `IndexError`, modelled as
`none`. -/

/-- State of one sliding-window primitive (`RateLimit`). -/
structure RateLimit where
  limit : ℕ
  window : ℚ
  entries : List (ℚ × ℕ)
deriving DecidableEq

/-- Sum of the counts of a list of `(timestamp, count)` entries. -/
def sumCounts (entries : List (ℚ × ℕ)) : ℕ :=
  (entries.map Prod.snd).sum

/-- The purge loop of `RateLimit.wait`: pop entries from the front while
they are at least a full window older than the current time. -/
def purgeOld (window now : ℚ) (entries : List (ℚ × ℕ)) : List (ℚ × ℕ) :=
  entries.dropWhile (fun e => decide (window ≤ now - e.1))

/-- Translation of `RateLimit.wait`: purge, then either append directly
or sleep until the oldest surviving entry leaves the window, purge
again and append. Returns the new state and the new current time. -/
def RateLimit.wait (rl : RateLimit) (now : ℚ) (count : ℕ) :
    Option (RateLimit × ℚ) :=
  let entries := purgeOld rl.window now rl.entries
  let total_count := sumCounts entries
  if rl.limit < total_count + count then
    match entries with
    | [] => none
    | (oldest_time, _) :: _ =>
      let sleep_time := rl.window - (now - oldest_time)
      if 0 < sleep_time then
        let now2 := now + sleep_time
        let entries2 := purgeOld rl.window now2 entries
        some ({ rl with entries := entries2 ++ [(now2, count)] }, now2)
      else
        some ({ rl with entries := entries ++ [(now, count)] }, now)
  else
    some ({ rl with entries := entries ++ [(now, count)] }, now)

/-- State of the dual limiter (`RateLimiter`). -/
structure RateLimiter where
  request_limit : RateLimit
  token_limit : RateLimit
deriving DecidableEq

/-- Translation of `RateLimiter.__init__` with its fixed 60-second window. -/
def RateLimiter.init (requests_per_minute tokens_per_minute : ℕ) : RateLimiter :=
  { request_limit := { limit := requests_per_minute, window := 60, entries := [] }
    token_limit := { limit := tokens_per_minute, window := 60, entries := [] } }

/-- Translation of `RateLimiter.wait`: the request window admits one
request, then the token window admits the token cost, each possibly
sleeping. -/
def RateLimiter.wait (lim : RateLimiter) (now : ℚ) (tokens : ℕ) :
    Option (RateLimiter × ℚ) :=
  match lim.request_limit.wait now 1 with
  | none => none
  | some (rq, t1) =>
    match lim.token_limit.wait t1 tokens with
    | none => none
    | some (tk, t2) => some ({ request_limit := rq, token_limit := tk }, t2)

/-! ### Admission traces

A trace is a list of `(delay, tokenCost)` pairs: each admit call starts
`delay ≥ 0` seconds after the previous call returned. Alongside the
limiter state we record the full history of appended entries, with the
timestamp each entry was recorded at, in order to state window-sum
properties over the whole run. -/

/-- A limiter state together with the clock and the append histories of
both windows. -/
structure LimiterTraceState where
  limiter : RateLimiter
  clock : ℚ
  reqHist : List (ℚ × ℕ)
  tokHist : List (ℚ × ℕ)
deriving DecidableEq

/-- Initial trace state at time `0`. -/
def initLimiterTrace (requests_per_minute tokens_per_minute : ℕ) : LimiterTraceState :=
  { limiter := RateLimiter.init requests_per_minute tokens_per_minute
    clock := 0
    reqHist := []
    tokHist := [] }

/-- One admit call after `delay` seconds of idleness, consuming
`tokens` token-units. In every branch of `RateLimit.wait` the appended
entry carries the returned clock as its timestamp, so the histories
extend by exactly that entry. -/
def admitStep (st : LimiterTraceState) (delay : ℚ) (tokens : ℕ) :
    Option LimiterTraceState :=
  let now := st.clock + delay
  match st.limiter.request_limit.wait now 1 with
  | none => none
  | some (rq, t1) =>
    match st.limiter.token_limit.wait t1 tokens with
    | none => none
    | some (tk, t2) =>
      some { limiter := { request_limit := rq, token_limit := tk }
             clock := t2
             reqHist := st.reqHist ++ [(t1, 1)]
             tokHist := st.tokHist ++ [(t2, tokens)] }

/-- Run a whole trace of admit calls. -/
def runAdmits (st : LimiterTraceState) : List (ℚ × ℕ) → Option LimiterTraceState
  | [] => some st
  | (delay, tokens) :: rest =>
    match admitStep st delay tokens with
    | none => none
    | some st2 => runAdmits st2 rest

/-- Amount recorded within the trailing window at moment `t`: an entry
recorded at `ts` counts while `ts ≤ t < ts + window`, matching the
purge condition `now - ts >= window` of the source. -/
def windowSum (window : ℚ) (hist : List (ℚ × ℕ)) (t : ℚ) : ℕ :=
  (hist.map (fun e => if e.1 ≤ t ∧ t - e.1 < window then e.2 else 0)).sum

/-! ## Prompt templates (`prompt_templates.py`)

The two `PromptTemplate`s, rendered by string substitution. The braces
and single quotes of the source text appear here as character escapes. -/

/-- The stripped QA generation template up to its `text` placeholder. -/
def QA_TEMPLATE_PRE : String :=
  "Generate any number of questions and their answers based on the following text.\nThe number of questions generated can be based on the context itself.\nRespond with a JSON array containing objects with \x27instruction\x27, \x27input\x27, and \x27output\x27 keys.\nThe \x27instruction\x27 should be the question, \x27input\x27 can be any sample inputs, and if there is no input,\nit should be an empty string, and \x27output\x27 should be the answer.\nFocus on general questions relevant to the given text.\nThere\x27s no need to generate questions related to location, time, or other specific details of the documents.\nText: "

/-- Rendering `QA_GENERATION_TEMPLATE.format(text=...)`. -/
def qaGenerationPrompt (text : List Char) : List Char :=
  QA_TEMPLATE_PRE.data ++ text

/-- The stripped verification template up to its `context` placeholder. -/
def VERIFICATION_TEMPLATE_PRE : String :=
  "You are a helpful assistant that verifies the relevance of a question and the correctness of an answer based on the provided context.\n\nContext: "

/-- The verification template between `context` and `question`. -/
def VERIFICATION_TEMPLATE_MID1 : String := "\nQuestion: "

/-- The verification template between `question` and `answer`. -/
def VERIFICATION_TEMPLATE_MID2 : String := "\nAnswer: "

/-- The verification template after `answer` (escaped braces rendered). -/
def VERIFICATION_TEMPLATE_POST : String :=
  "\n\nDetermine if the question is relevant to the context and if the answer is correct and relevant to the context.\n\nRespond with either \x27CORRECT\x27 or \x27INCORRECT\x27, followed by a brief explanation.\n\nProvide your response **exactly** in the following JSON format:\n\n\x7b\n    \"verdict\": \"CORRECT\" or \"INCORRECT\",\n    \"explanation\": \"Your brief explanation here.\"\n\x7d\n\n**Example response:**\n\n\x7b\n    \"verdict\": \"CORRECT\",\n    \"explanation\": \"The answer accurately reflects the information in the context.\"\n\x7d"

/-- Rendering `VERIFICATION_TEMPLATE.format(context=..., question=..., answer=...)`. -/
def verificationPrompt (context question answer : List Char) : List Char :=
  VERIFICATION_TEMPLATE_PRE.data ++ context ++
    VERIFICATION_TEMPLATE_MID1.data ++ question ++
    VERIFICATION_TEMPLATE_MID2.data ++ answer ++
    VERIFICATION_TEMPLATE_POST.data

/-! ## Generator (`llm_utils.generate_questions_answers`)

The external collaborators appear as parameters: `tok` is the
tokenizer's `count(text)`, `invoke` the synchronous model backend on
the rendered prompt, failing with a transport error message. The
optional rate limiter and the clock are threaded explicitly. -/

/-- Translation of the `if rate_limiter: rate_limiter.wait(input_tokens)`
guard. `none` propagates the limiter's `IndexError`. -/
def limiterStep (rate_limiter : Option RateLimiter) (clock : ℚ) (tokens : ℕ) :
    Option (Option RateLimiter × ℚ) :=
  match rate_limiter with
  | none => some (none, clock)
  | some lim =>
    match lim.wait clock tokens with
    | none => none
    | some (lim2, t2) => some (some lim2, t2)

/-- Translation of `generate_questions_answers`: count prompt tokens,
admit through the limiter, invoke the model; a transport error is
caught and yields the empty list with the analyzer untouched; on
success count response tokens, record usage and extract records. The
source's final `if result: ... else: ...` returns `result` either way. -/
def generate_questions_answers (tok : List Char → ℕ)
    (invoke : List Char → Except (List Char) (List Char))
    (text_chunk : List Char) (ca : CostAnalyzer)
    (rate_limiter : Option RateLimiter) (clock : ℚ) :
    Option (List JsonValue × CostAnalyzer × Option RateLimiter × ℚ) :=
  let prompt_text_for_count := qaGenerationPrompt text_chunk
  let input_tokens := tok prompt_text_for_count
  match limiterStep rate_limiter clock input_tokens with
  | none => none
  | some (rl2, clock2) =>
    match invoke prompt_text_for_count with
    | Except.error _ => some ([], ca, rl2, clock2)
    | Except.ok response =>
      let output_tokens := tok response
      let ca2 := (ca.add_usage input_tokens output_tokens).1
      let result := extract_json_from_response response
      some (result, ca2, rl2, clock2)

/-- Translation of `process_text`: logs, then delegates to
`generate_questions_answers`. -/
def process_text (tok : List Char → ℕ)
    (invoke : List Char → Except (List Char) (List Char))
    (text : List Char) (ca : CostAnalyzer)
    (rate_limiter : Option RateLimiter) (clock : ℚ) :
    Option (List JsonValue × CostAnalyzer × Option RateLimiter × ℚ) :=
  generate_questions_answers tok invoke text ca rate_limiter clock

/-! ## Verifier (`verification.py`) -/

/-- The four terminal verification states. -/
inductive VerificationStatus where
  | CORRECT
  | INCORRECT
  | UNKNOWN
  | ERROR
deriving DecidableEq

/-- A verification verdict. -/
structure VerificationResult where
  status : VerificationStatus
  explanation : List Char
deriving DecidableEq

/-- Translation of `verify_qa_pair`, taking the record's `instruction`
and `output` values (its `qa_pair["instruction"]` / `qa_pair["output"]`
lookups). A transport error inside the `try` yields `ERROR` with the
failure message before any usage is recorded; otherwise the response is
classified by the stripped-and-uppercased prefix while the explanation
is sliced from the raw response. -/
def verify_qa_pair (tok : List Char → ℕ)
    (invoke : List Char → Except (List Char) (List Char))
    (context question answer : List Char)
    (ca : CostAnalyzer) (rate_limiter : Option RateLimiter) (clock : ℚ) :
    Option (VerificationResult × CostAnalyzer × Option RateLimiter × ℚ) :=
  let prompt_text_for_count := verificationPrompt context question answer
  let input_tokens := tok prompt_text_for_count
  match limiterStep rate_limiter clock input_tokens with
  | none => none
  | some (rl2, clock2) =>
    match invoke prompt_text_for_count with
    | Except.error e => some (⟨VerificationStatus.ERROR, e⟩, ca, rl2, clock2)
    | Except.ok response =>
      let output_tokens := tok response
      let ca2 := (ca.add_verification_usage input_tokens output_tokens).1
      let vr :=
        if pyStartswith (pyUpper (pyStrip response)) "CORRECT".data then
          VerificationResult.mk VerificationStatus.CORRECT (pyStrip (response.drop 7))
        else if pyStartswith (pyUpper (pyStrip response)) "INCORRECT".data then
          VerificationResult.mk VerificationStatus.INCORRECT (pyStrip (response.drop 9))
        else
          VerificationResult.mk VerificationStatus.UNKNOWN
            "Unexpected verification response".data
      some (vr, ca2, rl2, clock2)

/-- String lookup of a key in a parsed JSON object. -/
def getStrKey (v : JsonValue) (key : List Char) : Option (List Char) :=
  match v with
  | JsonValue.obj kvs =>
    match kvs.find? (fun kv => kv.1 == key) with
    | some (_, JsonValue.str s) => some s
    | _ => none
  | _ => none

/-- Spelled-out status of a verdict, as serialized into the record. -/
def statusText : VerificationStatus → List Char
  | VerificationStatus.CORRECT => "CORRECT".data
  | VerificationStatus.INCORRECT => "INCORRECT".data
  | VerificationStatus.UNKNOWN => "UNKNOWN".data
  | VerificationStatus.ERROR => "ERROR".data

/-- The `verification` member added to a verified record. -/
def encodeVerification (vr : VerificationResult) : JsonValue :=
  JsonValue.obj
    [("status".data, JsonValue.str (statusText vr.status)),
     ("explanation".data, JsonValue.str vr.explanation)]

/-- Translation of `verify_dataset`: verify each record in order and
extend it with the verdict. The generator hands this function
raw parsed values; a record without string `instruction`/`output`
members makes the source raise outside any handler, modelled as `none`. -/
def verify_dataset (tok : List Char → ℕ)
    (invoke : List Char → Except (List Char) (List Char))
    (context : List Char) :
    List JsonValue → CostAnalyzer → Option RateLimiter → ℚ →
    Option (List JsonValue × CostAnalyzer × Option RateLimiter × ℚ)
  | [], ca, rl, clock => some ([], ca, rl, clock)
  | qa :: rest, ca, rl, clock =>
    match qa, getStrKey qa "instruction".data, getStrKey qa "output".data with
    | JsonValue.obj kvs, some question, some answer =>
      match verify_qa_pair tok invoke context question answer ca rl clock with
      | none => none
      | some (vr, ca2, rl2, clock2) =>
        match verify_dataset tok invoke context rest ca2 rl2 clock2 with
        | none => none
        | some (tail, ca3, rl3, clock3) =>
          some (JsonValue.obj (kvs ++ [("verification".data, encodeVerification vr)]) :: tail,
            ca3, rl3, clock3)
    | _, _, _ => none

/-! ## Persister (`file_processor.save_mined_data`)

The output file is modelled by its observable contents: absent, empty
(zero bytes), or a JSON array of records. `os.path.getsize(...) > 0`
distinguishes the empty file; a file written by this program always
holds a JSON array. -/

/-- Observable contents of the output path. -/
inductive FsFile where
  | absent
  | emptyFile
  | jsonArray (records : List JsonValue)

/-- Translation of `save_mined_data`: format the batch
(`[dict(qa_pair) for qa_pair in mined_data]` is the identity on these
values); if the file exists and is non-empty, parse it, extend with the
formatted batch and rewrite; otherwise write the formatted batch fresh. -/
def save_mined_data (mined_data : List JsonValue) (file : FsFile) : FsFile :=
  let formatted_data := format_alpaca_dataset mined_data
  match file with
  | FsFile.jsonArray existing_data => FsFile.jsonArray (existing_data ++ formatted_data)
  | FsFile.absent => FsFile.jsonArray formatted_data
  | FsFile.emptyFile => FsFile.jsonArray formatted_data

/-! ## Orchestrator (`file_processor.process_file`, `cli.main`)

The per-file chunk loop. The loop may be interrupted by a
`KeyboardInterrupt` (`interruptBefore i` is whether the signal arrives
while chunk `i` is being processed, i.e. after chunk `i-1` completed);
an interrupt propagates out of `process_file`. `vinvoke` is the model
backend as seen by verification prompts. -/

/-- The mutable state of one `process_file` call, plus the log of the
arguments of every `save_mined_data` call made so far. -/
structure MineState where
  mined_data : List JsonValue
  ca : CostAnalyzer
  rate_limiter : Option RateLimiter
  clock : ℚ
  file : FsFile
  persistLog : List (List JsonValue)

/-- How a `process_file` call ends: normal return, a propagating
`KeyboardInterrupt`, or a propagating ordinary exception. -/
inductive ChunkLoopResult where
  | ok (st : MineState)
  | interrupted (st : MineState)
  | exn

/-- The `for i, chunk in enumerate(text_chunks)` loop of `process_file`:
generate for each chunk, optionally verify, extend the accumulator. -/
def chunkLoop (tok : List Char → ℕ)
    (invoke vinvoke : List Char → Except (List Char) (List Char))
    (verify : Bool) (interruptBefore : ℕ → Bool) :
    ℕ → List (List Char) → MineState → ChunkLoopResult
  | _, [], st => ChunkLoopResult.ok st
  | i, chunk :: rest, st =>
    if interruptBefore i then ChunkLoopResult.interrupted st
    else
      match process_text tok invoke chunk st.ca st.rate_limiter st.clock with
      | none => ChunkLoopResult.exn
      | some (qa_pairs, ca2, rl2, clock2) =>
        if verify then
          match verify_dataset tok vinvoke chunk qa_pairs ca2 rl2 clock2 with
          | none => ChunkLoopResult.exn
          | some (verified_chunk_data, ca3, rl3, clock3) =>
            chunkLoop tok invoke vinvoke verify interruptBefore (i + 1) rest
              { st with
                  mined_data := st.mined_data ++ verified_chunk_data
                  ca := ca3
                  rate_limiter := rl3
                  clock := clock3 }
        else
          chunkLoop tok invoke vinvoke verify interruptBefore (i + 1) rest
            { st with
                mined_data := st.mined_data ++ qa_pairs
                ca := ca2
                rate_limiter := rl2
                clock := clock2 }

/-- Translation of the chunk-processing part of `process_file`: run the
loop over the chunks of the file's text, then — only after the loop has
finished — call `save_mined_data` once. An interrupt or exception in
the loop skips the save and propagates. -/
def process_file (tok : List Char → ℕ)
    (invoke vinvoke : List Char → Except (List Char) (List Char))
    (verify : Bool) (interruptBefore : ℕ → Bool)
    (text_chunks : List (List Char)) (st0 : MineState) : ChunkLoopResult :=
  match chunkLoop tok invoke vinvoke verify interruptBefore 0 text_chunks st0 with
  | ChunkLoopResult.ok st =>
    ChunkLoopResult.ok
      { st with
          file := save_mined_data st.mined_data st.file
          persistLog := st.persistLog ++ [st.mined_data] }
  | other => other

/-- What `cli.main` observably produces for a single-file run. -/
structure MainResult where
  summary_pairs : List JsonValue
  file : FsFile
  persistLog : List (List JsonValue)
  raised : Bool

/-- Translation of the `try/except KeyboardInterrupt/except
Exception/finally` of `cli.main` around a single-file mining run:
`mined_data` starts `[]` and is only assigned when `start_mining`
returns, so on an interrupt the `finally` block prints a summary of
`[]`; no persistence happens on the interrupt path; `main` returns
normally in every case. -/
def main_run (tok : List Char → ℕ)
    (invoke vinvoke : List Char → Except (List Char) (List Char))
    (verify : Bool) (interruptBefore : ℕ → Bool)
    (text_chunks : List (List Char)) (st0 : MineState) : MainResult :=
  match process_file tok invoke vinvoke verify interruptBefore text_chunks st0 with
  | ChunkLoopResult.ok st =>
    { summary_pairs := st.mined_data, file := st.file
      persistLog := st.persistLog, raised := false }
  | ChunkLoopResult.interrupted st =>
    { summary_pairs := [], file := st.file
      persistLog := st.persistLog, raised := false }
  | ChunkLoopResult.exn =>
    { summary_pairs := [], file := st0.file
      persistLog := st0.persistLog, raised := false }

/-! ## Spec-side auxiliary definitions -/

/-- A record call on the ledger: `add_usage` (generation) or
`add_verification_usage` (verification), with its two token amounts. -/
inductive UsageEvent where
  | generation (input_tokens output_tokens : ℕ)
  | verification (input_tokens output_tokens : ℕ)

/-- Apply one record call to the ledger, discarding the returned costs. -/
def applyUsageEvent (ca : CostAnalyzer) : UsageEvent → CostAnalyzer
  | UsageEvent.generation i o => (ca.add_usage i o).1
  | UsageEvent.verification i o => (ca.add_verification_usage i o).1

/-- Run a sequence of record calls against the ledger. -/
def runUsageEvents (ca : CostAnalyzer) (events : List UsageEvent) : CostAnalyzer :=
  events.foldl applyUsageEvent ca

/-- Sum of the generation input-token amounts of a call sequence. -/
def genInputSum : List UsageEvent → ℕ
  | [] => 0
  | UsageEvent.generation i _ :: es => i + genInputSum es
  | UsageEvent.verification _ _ :: es => genInputSum es

/-- Sum of the generation output-token amounts of a call sequence. -/
def genOutputSum : List UsageEvent → ℕ
  | [] => 0
  | UsageEvent.generation _ o :: es => o + genOutputSum es
  | UsageEvent.verification _ _ :: es => genOutputSum es

/-- Sum of the per-call generation input costs at input price `p`. -/
def genInputCostSum (p : ℚ) : List UsageEvent → ℚ
  | [] => 0
  | UsageEvent.generation i _ :: es => (i : ℚ) / 1000000 * p + genInputCostSum p es
  | UsageEvent.verification _ _ :: es => genInputCostSum p es

/-- Sum of the per-call generation output costs at output price `p`. -/
def genOutputCostSum (p : ℚ) : List UsageEvent → ℚ
  | [] => 0
  | UsageEvent.generation _ o :: es => (o : ℚ) / 1000000 * p + genOutputCostSum p es
  | UsageEvent.verification _ _ :: es => genOutputCostSum p es

/-- Sum of the verification token amounts (input plus output per call). -/
def verifTokenSum : List UsageEvent → ℕ
  | [] => 0
  | UsageEvent.generation _ _ :: es => verifTokenSum es
  | UsageEvent.verification i o :: es => (i + o) + verifTokenSum es

/-- Sum of the per-call verification costs at prices `pin`, `pout`. -/
def verifCostSum (pin pout : ℚ) : List UsageEvent → ℚ
  | [] => 0
  | UsageEvent.generation _ _ :: es => verifCostSum pin pout es
  | UsageEvent.verification i o :: es =>
    ((i : ℚ) / 1000000 * pin + (o : ℚ) / 1000000 * pout) + verifCostSum pin pout es

/-- A well-typed training record, mirroring the `QAPair` `TypedDict`. -/
structure QAPair where
  instruction : List Char
  input : List Char
  output : List Char

/-- The JSON object serialization of a well-typed record. -/
def qaPairJson (qa : QAPair) : JsonValue :=
  JsonValue.obj
    [("instruction".data, JsonValue.str qa.instruction),
     ("input".data, JsonValue.str qa.input),
     ("output".data, JsonValue.str qa.output)]

/-- Per-element behaviour of `format_alpaca_dataset`: a parsed object
yields one record reading the three keys with `dict.get` and its
empty-string default; any other element is skipped. -/
def formatOne (qa : JsonValue) : List JsonValue :=
  match qa with
  | JsonValue.obj kvs =>
    [JsonValue.obj
      [("instruction".data, dictGet kvs "instruction".data (JsonValue.str [])),
       ("input".data, dictGet kvs "input".data (JsonValue.str [])),
       ("output".data, dictGet kvs "output".data (JsonValue.str []))]]
  | _ => []

/-! ## Helper lemmas -/

theorem foldl_append_eq_flatten {α β : Type} (f : List β → α → List β) (g : α → List β)
    (hf : ∀ acc x, f acc x = acc ++ g x) :
    ∀ (l : List α) (acc : List β), l.foldl f acc = acc ++ (l.map g).flatten := by
  intro l
  induction l with
  | nil => intro acc; simp
  | cons x rest ih =>
    intro acc
    rw [List.foldl_cons, hf, ih, List.map_cons, List.flatten_cons, List.append_assoc]

/-- The imperative formatting loop, as the concatenation of per-element
results. -/
theorem format_alpaca_dataset_eq_flatten (l : List JsonValue) :
    format_alpaca_dataset l = (l.map formatOne).flatten := by
  unfold format_alpaca_dataset
  exact foldl_append_eq_flatten _ formatOne
    (by intro acc x; cases x <;> simp [formatOne]) l []

/-- Formatting a list of well-typed records is the identity on their
serializations. -/
theorem format_alpaca_dataset_map_qaPairJson (A : List QAPair) :
    format_alpaca_dataset (A.map qaPairJson) = A.map qaPairJson := by
  rw [format_alpaca_dataset_eq_flatten]
  induction A with
  | nil => rfl
  | cons qa rest ih =>
    have hone : formatOne (qaPairJson qa) = [qaPairJson qa] := rfl
    simp only [List.map_cons, List.flatten_cons, hone, ih]
    rfl

/-- Field bookkeeping of a record-call sequence, relative to an
arbitrary starting ledger. -/
theorem runUsageEvents_fields (events : List UsageEvent) :
    ∀ ca : CostAnalyzer,
      (runUsageEvents ca events).input_price_per_1m_tokens = ca.input_price_per_1m_tokens ∧
      (runUsageEvents ca events).output_price_per_1m_tokens = ca.output_price_per_1m_tokens ∧
      (runUsageEvents ca events).total_input_tokens
        = ca.total_input_tokens + genInputSum events ∧
      (runUsageEvents ca events).total_output_tokens
        = ca.total_output_tokens + genOutputSum events ∧
      (runUsageEvents ca events).total_input_cost
        = ca.total_input_cost + genInputCostSum ca.input_price_per_1m_tokens events ∧
      (runUsageEvents ca events).total_output_cost
        = ca.total_output_cost + genOutputCostSum ca.output_price_per_1m_tokens events ∧
      (runUsageEvents ca events).total_verification_tokens
        = ca.total_verification_tokens + verifTokenSum events ∧
      (runUsageEvents ca events).total_verification_cost
        = ca.total_verification_cost
          + verifCostSum ca.input_price_per_1m_tokens ca.output_price_per_1m_tokens events := by
  induction events with
  | nil =>
    intro ca
    simp [runUsageEvents, genInputSum, genOutputSum, genInputCostSum, genOutputCostSum,
      verifTokenSum, verifCostSum]
  | cons e rest ih =>
    intro ca
    cases e with
    | generation i o =>
      have h := ih (applyUsageEvent ca (UsageEvent.generation i o))
      simp only [runUsageEvents, List.foldl] at h ⊢
      simp only [applyUsageEvent, CostAnalyzer.add_usage, CostAnalyzer.calculate_cost] at h ⊢
      obtain ⟨h1, h2, h3, h4, h5, h6, h7, h8⟩ := h
      refine ⟨by simpa using h1, by simpa using h2, ?_, ?_, ?_, ?_, ?_, ?_⟩ <;>
        simp_all [genInputSum, genOutputSum, genInputCostSum, genOutputCostSum,
          verifTokenSum, verifCostSum] <;> ring
    | verification i o =>
      have h := ih (applyUsageEvent ca (UsageEvent.verification i o))
      simp only [runUsageEvents, List.foldl] at h ⊢
      simp only [applyUsageEvent, CostAnalyzer.add_verification_usage,
        CostAnalyzer.calculate_cost] at h ⊢
      obtain ⟨h1, h2, h3, h4, h5, h6, h7, h8⟩ := h
      refine ⟨by simpa using h1, by simpa using h2, ?_, ?_, ?_, ?_, ?_, ?_⟩ <;>
        simp_all [genInputSum, genOutputSum, genInputCostSum, genOutputCostSum,
          verifTokenSum, verifCostSum] <;> ring

/-! ## Claim theorems -/

/-- C9: after any sequence of `add_usage` / `add_verification_usage`
calls starting from a fresh ledger, the summary's input/output token
totals are the sums of the generation amounts, the input/output cost
totals are the sums of the per-call generation costs, the verification
token and cost totals are the sums of the verification amounts and
per-call costs, and the grand total cost is the generation cost
(input plus output) plus the verification cost. `get_summary` is a pure
read by construction (`CostAnalyzer → UsageSummary`), and these
equalities say it reflects every record call exactly once. -/
theorem C9_ledger_additivity (pin pout : ℚ) (events : List UsageEvent) :
    ((runUsageEvents (CostAnalyzer.init pin pout) events).get_summary).total_input_tokens
      = genInputSum events ∧
    ((runUsageEvents (CostAnalyzer.init pin pout) events).get_summary).total_output_tokens
      = genOutputSum events ∧
    ((runUsageEvents (CostAnalyzer.init pin pout) events).get_summary).total_input_cost
      = genInputCostSum pin events ∧
    ((runUsageEvents (CostAnalyzer.init pin pout) events).get_summary).total_output_cost
      = genOutputCostSum pout events ∧
    ((runUsageEvents (CostAnalyzer.init pin pout) events).get_summary).total_verification_tokens
      = verifTokenSum events ∧
    ((runUsageEvents (CostAnalyzer.init pin pout) events).get_summary).total_verification_cost
      = verifCostSum pin pout events ∧
    ((runUsageEvents (CostAnalyzer.init pin pout) events).get_summary).grand_total_cost
      = (genInputCostSum pin events + genOutputCostSum pout events)
        + verifCostSum pin pout events := by
  obtain ⟨h1, h2, h3, h4, h5, h6, h7, h8⟩ := runUsageEvents_fields events (CostAnalyzer.init pin pout)
  simp only [CostAnalyzer.init] at h3 h4 h5 h6 h7 h8
  simp [CostAnalyzer.get_summary, CostAnalyzer.init, h3, h4, h5, h6, h7, h8]

/-- C4: `save_mined_data` with batch `A` then batch `B` against a fresh
path yields a file holding exactly the records of `A` followed by those
of `B`; a batch `B` against a pre-existing non-empty file holding `A`
yields `A` followed by `B`; against an absent or zero-byte file the
formatted batch is written fresh. -/
theorem C4_persist_append (A B : List QAPair) :
    save_mined_data (B.map qaPairJson) (save_mined_data (A.map qaPairJson) FsFile.absent)
      = FsFile.jsonArray (A.map qaPairJson ++ B.map qaPairJson) ∧
    save_mined_data (B.map qaPairJson) (FsFile.jsonArray (A.map qaPairJson))
      = FsFile.jsonArray (A.map qaPairJson ++ B.map qaPairJson) ∧
    save_mined_data (A.map qaPairJson) FsFile.absent
      = FsFile.jsonArray (A.map qaPairJson) ∧
    save_mined_data (A.map qaPairJson) FsFile.emptyFile
      = FsFile.jsonArray (A.map qaPairJson) := by
  refine ⟨?_, ?_, ?_, ?_⟩ <;>
    simp [save_mined_data, format_alpaca_dataset_map_qaPairJson]

/-- C10: when the model invocation of a generation call fails with a
transport error, `generate_questions_answers` returns the empty record
list and the cost analyzer EXACTLY as it was passed in — no counter
moves — while the configured rate limiter has already advanced by the
admission of the prompt's token count. -/
theorem C10_ledger_unchanged_on_failed_generation
    (tok : List Char → ℕ) (invoke : List Char → Except (List Char) (List Char))
    (text_chunk : List Char) (ca : CostAnalyzer) (lim : RateLimiter) (clock : ℚ)
    (e : List Char) (lim2 : RateLimiter) (clock2 : ℚ)
    (herr : invoke (qaGenerationPrompt text_chunk) = Except.error e)
    (hwait : lim.wait clock (tok (qaGenerationPrompt text_chunk)) = some (lim2, clock2)) :
    generate_questions_answers tok invoke text_chunk ca (some lim) clock
      = some ([], ca, some lim2, clock2) := by
  simp [generate_questions_answers, limiterStep, hwait, herr]

/-- Witness for C10 at a concrete failing call: a zero-token tokenizer,
a backend that always fails, and a fresh limiter. -/
theorem C10_witness :
    generate_questions_answers (fun _ => 0) (fun _ => Except.error "boom".data)
      "x".data (CostAnalyzer.init 1 2) (some (RateLimiter.init 5 7)) 0
      = some ([], CostAnalyzer.init 1 2,
          some ⟨⟨5, 60, [(0, 1)]⟩, ⟨7, 60, [(0, 0)]⟩⟩, 0) :=
  C10_ledger_unchanged_on_failed_generation (fun _ => 0)
    (fun _ => Except.error "boom".data) "x".data (CostAnalyzer.init 1 2)
    (RateLimiter.init 5 7) 0 "boom".data ⟨⟨5, 60, [(0, 1)]⟩, ⟨7, 60, [(0, 0)]⟩⟩ 0
    rfl rfl

set_option maxRecDepth 100000 in
/-- C2 (code evaluation at the failing input): over a file of two
chunks, each generating one record, `process_file` performs exactly ONE
`save_mined_data` call, made after the loop with both chunks' records —
not one persistence per chunk as the source's own `# Save after each
chunk` comment and the spec state. The persist log has a single entry
holding both records; no persist separates the two chunks. -/
theorem C2_single_persist_after_file_loop :
    process_file (fun _ => 0) (fun p => Except.ok p) (fun p => Except.ok p) false
        (fun _ => false)
        ["[\x7b\"instruction\": \"q1\"\x7d]".data, "[\x7b\"instruction\": \"q2\"\x7d]".data]
        ⟨[], CostAnalyzer.init 0 0, none, 0, FsFile.absent, []⟩
      = ChunkLoopResult.ok
          ⟨[JsonValue.obj [("instruction".data, JsonValue.str "q1".data)],
            JsonValue.obj [("instruction".data, JsonValue.str "q2".data)]],
           ((((CostAnalyzer.init 0 0).add_usage 0 0).1).add_usage 0 0).1,
           none, 0,
           FsFile.jsonArray
             [JsonValue.obj
                [("instruction".data, JsonValue.str "q1".data),
                 ("input".data, JsonValue.str []),
                 ("output".data, JsonValue.str [])],
              JsonValue.obj
                [("instruction".data, JsonValue.str "q2".data),
                 ("input".data, JsonValue.str []),
                 ("output".data, JsonValue.str [])]],
           [[JsonValue.obj [("instruction".data, JsonValue.str "q1".data)],
             JsonValue.obj [("instruction".data, JsonValue.str "q2".data)]]]⟩ := by
  rfl

set_option maxRecDepth 100000 in
/-- C3 (code evaluation at the failing input): a `KeyboardInterrupt`
arriving after chunk 1 of 3 completes propagates out of the chunk loop
BEFORE the per-file `save_mined_data` call, so nothing is ever
persisted: `process_file` escapes with chunk 1's record only in memory
and the file still absent, and `cli.main` catches the interrupt and
returns normally — its log line announces saving, but the `finally`
block prints a summary of the never-assigned `[]` and writes nothing. -/
theorem C3_interrupt_persists_nothing :
    process_file (fun _ => 0) (fun p => Except.ok p) (fun p => Except.ok p) false
        (fun i => i == 1)
        ["[\x7b\"instruction\": \"q1\"\x7d]".data, "[2]".data, "[3]".data]
        ⟨[], CostAnalyzer.init 0 0, none, 0, FsFile.absent, []⟩
      = ChunkLoopResult.interrupted
          ⟨[JsonValue.obj [("instruction".data, JsonValue.str "q1".data)]],
           (((CostAnalyzer.init 0 0).add_usage 0 0).1),
           none, 0, FsFile.absent, []⟩ ∧
    main_run (fun _ => 0) (fun p => Except.ok p) (fun p => Except.ok p) false
        (fun i => i == 1)
        ["[\x7b\"instruction\": \"q1\"\x7d]".data, "[2]".data, "[3]".data]
        ⟨[], CostAnalyzer.init 0 0, none, 0, FsFile.absent, []⟩
      = ⟨[], FsFile.absent, [], false⟩ :=
  ⟨rfl, rfl⟩

/-- C5: when the model call of the middle chunk of three fails with a
transport error, `process_file` still returns normally, its accumulated
records are exactly those extracted from the first and third chunks'
responses, and the single per-file persist call writes exactly those
records' formatting. -/
theorem C5_failure_isolation
    (tok : List Char → ℕ) (invoke vinvoke : List Char → Except (List Char) (List Char))
    (c1 c2 c3 r1 r3 e : List Char) (ca : CostAnalyzer) (clock : ℚ)
    (h1 : invoke (qaGenerationPrompt c1) = Except.ok r1)
    (h2 : invoke (qaGenerationPrompt c2) = Except.error e)
    (h3 : invoke (qaGenerationPrompt c3) = Except.ok r3) :
    process_file tok invoke vinvoke false (fun _ => false) [c1, c2, c3]
        ⟨[], ca, none, clock, FsFile.absent, []⟩
      = ChunkLoopResult.ok
          ⟨extract_json_from_response r1 ++ extract_json_from_response r3,
           (((ca.add_usage (tok (qaGenerationPrompt c1)) (tok r1)).1).add_usage
              (tok (qaGenerationPrompt c3)) (tok r3)).1,
           none, clock,
           FsFile.jsonArray (format_alpaca_dataset
             (extract_json_from_response r1 ++ extract_json_from_response r3)),
           [extract_json_from_response r1 ++ extract_json_from_response r3]⟩ := by
  simp [process_file, chunkLoop, process_text, generate_questions_answers,
    limiterStep, h1, h2, h3, save_mined_data]

set_option maxRecDepth 100000 in
/-- Witness for C5 at a concrete three-chunk run whose middle model
call fails: the other two chunks' records are persisted. -/
theorem C5_failure_isolation_witness :
    process_file (fun _ => 0)
        (fun p =>
          if p == qaGenerationPrompt "b".data then Except.error "boom".data
          else Except.ok (p.drop QA_TEMPLATE_PRE.data.length))
        (fun p => Except.ok p) false (fun _ => false)
        ["[\x7b\"instruction\": \"q1\"\x7d]".data, "b".data,
         "[\x7b\"instruction\": \"q3\"\x7d]".data]
        ⟨[], CostAnalyzer.init 0 0, none, 0, FsFile.absent, []⟩
      = ChunkLoopResult.ok
          ⟨[JsonValue.obj [("instruction".data, JsonValue.str "q1".data)],
            JsonValue.obj [("instruction".data, JsonValue.str "q3".data)]],
           ((((CostAnalyzer.init 0 0).add_usage 0 0).1).add_usage 0 0).1,
           none, 0,
           FsFile.jsonArray
             [JsonValue.obj
                [("instruction".data, JsonValue.str "q1".data),
                 ("input".data, JsonValue.str []),
                 ("output".data, JsonValue.str [])],
              JsonValue.obj
                [("instruction".data, JsonValue.str "q3".data),
                 ("input".data, JsonValue.str []),
                 ("output".data, JsonValue.str [])]],
           [[JsonValue.obj [("instruction".data, JsonValue.str "q1".data)],
             JsonValue.obj [("instruction".data, JsonValue.str "q3".data)]]]⟩ := by
  have h := C5_failure_isolation (fun _ => 0)
    (fun p =>
      if p == qaGenerationPrompt "b".data then Except.error "boom".data
      else Except.ok (p.drop QA_TEMPLATE_PRE.data.length))
    (fun p => Except.ok p)
    "[\x7b\"instruction\": \"q1\"\x7d]".data "b".data
    "[\x7b\"instruction\": \"q3\"\x7d]".data
    "[\x7b\"instruction\": \"q1\"\x7d]".data
    "[\x7b\"instruction\": \"q3\"\x7d]".data
    "boom".data (CostAnalyzer.init 0 0) 0 (by rfl) (by rfl) (by rfl)
  exact h.trans (by rfl)

/-- String-ness test on a parsed JSON value. -/
def JsonValue.isString : JsonValue → Bool
  | JsonValue.str _ => true
  | _ => false

/-- C6 counterexample: in the text `a [1] b [2] c` both `[1]` and `[2]`
are well-formed JSON arrays occurring in the text, yet the extractor
returns the empty sequence — the single greedy regex span `[1] b [2]`
fails to parse and there is no per-span scan, so not every well-formed
object or array found in the text is returned. -/
theorem C6_counterexample_missed_spans :
    extract_json_from_response "a [1] b [2] c".data = [] ∧
    json_loads "[1]".data = some (JsonValue.arr [JsonValue.num 1]) ∧
    json_loads "[2]".data = some (JsonValue.arr [JsonValue.num 2]) ∧
    "a ".data ++ "[1]".data ++ " b ".data ++ "[2]".data ++ " c".data
      = "a [1] b [2] c".data :=
  ⟨rfl, rfl, rfl, rfl⟩

/-- C6 amended: for every input text the extractor returns, without
raising, the result of parsing the single greedy span from the first
left bracket through the last right bracket: a parsed array contributes
its elements, a parsed object itself, and anything else — a span that
fails to parse, or no span at all — contributes nothing, so the result
is empty rather than an error. -/
theorem C6_extraction_single_greedy_span (s : List Char) :
    (findallGreedyBrackets s = [] → extract_json_from_response s = []) ∧
    (∀ m, findallGreedyBrackets s = [m] →
      extract_json_from_response s =
        match json_loads m with
        | some (JsonValue.arr elems) => elems
        | some (JsonValue.obj members) => [JsonValue.obj members]
        | _ => []) := by
  constructor
  · intro h
    simp [extract_json_from_response, h]
  · intro m h
    simp only [extract_json_from_response, h, List.foldl]
    cases hj : json_loads m with
    | none => simp [hj]
    | some v => cases v <;> simp [hj]

/-- Witness for C6 at the spec's own example: the bracketed record
surrounded by prose parses to exactly one raw object. -/
theorem C6_extraction_witness :
    extract_json_from_response
        "here you go: [\x7b\"instruction\":\"Q\",\"output\":\"A\"\x7d] thanks".data
      = [JsonValue.obj [("instruction".data, JsonValue.str "Q".data),
                        ("output".data, JsonValue.str "A".data)]] := by
  have h := (C6_extraction_single_greedy_span
      "here you go: [\x7b\"instruction\":\"Q\",\"output\":\"A\"\x7d] thanks".data).2
      "[\x7b\"instruction\":\"Q\",\"output\":\"A\"\x7d]".data (by rfl)
  exact h.trans (by rfl)

set_option maxRecDepth 100000 in
/-- C7 counterexample: on a successful model call whose response is
`[{"instruction": 5}]` the Generator returns the RAW parsed object —
no `input`/`output` keys are added and the non-string `instruction`
value `5` is kept, not replaced by the empty string; even the
later `format_alpaca_dataset` pass keeps the non-string value. -/
theorem C7_counterexample_nonstring_kept :
    generate_questions_answers (fun _ => 0)
        (fun p => Except.ok (p.drop QA_TEMPLATE_PRE.data.length))
        "[\x7b\"instruction\": 5\x7d]".data (CostAnalyzer.init 0 0) none 0
      = some ([JsonValue.obj [("instruction".data, JsonValue.num 5)]],
          ((CostAnalyzer.init 0 0).add_usage 0 0).1, none, 0) ∧
    format_alpaca_dataset [JsonValue.obj [("instruction".data, JsonValue.num 5)]]
      = [JsonValue.obj
          [("instruction".data, JsonValue.num 5),
           ("input".data, JsonValue.str []),
           ("output".data, JsonValue.str [])]] ∧
    (JsonValue.num 5).isString = false :=
  ⟨rfl, rfl, rfl⟩

/-- C7 amended: on a successful model call the Generator returns the
extractor's raw parsed values unchanged; the coercion to
instruction/input/output records happens only in
`format_alpaca_dataset`, which emits one record per parsed OBJECT
(anything else is skipped), reading each key with `dict.get` so that
only a MISSING key is replaced by the empty string — a present
non-string value passes through. -/
theorem C7_generator_raw_format_defaults :
    (∀ (tok : List Char → ℕ) (invoke : List Char → Except (List Char) (List Char))
        (text_chunk : List Char) (ca : CostAnalyzer) (rl : Option RateLimiter)
        (clock : ℚ) (rl2 : Option RateLimiter) (clock2 : ℚ) (resp : List Char),
      limiterStep rl clock (tok (qaGenerationPrompt text_chunk)) = some (rl2, clock2) →
      invoke (qaGenerationPrompt text_chunk) = Except.ok resp →
      generate_questions_answers tok invoke text_chunk ca rl clock
        = some (extract_json_from_response resp,
            (ca.add_usage (tok (qaGenerationPrompt text_chunk)) (tok resp)).1,
            rl2, clock2)) ∧
    (∀ qa_pairs : List JsonValue,
      format_alpaca_dataset qa_pairs = (qa_pairs.map formatOne).flatten) := by
  constructor
  · intro tok invoke text_chunk ca rl clock rl2 clock2 resp hlim hok
    simp [generate_questions_answers, hlim, hok]
  · exact format_alpaca_dataset_eq_flatten

set_option maxRecDepth 100000 in
/-- Witness for C7 at a concrete successful call returning one raw
object with a numeric `instruction` member. -/
theorem C7_generator_raw_witness :
    generate_questions_answers (fun _ => 0)
        (fun p => Except.ok (p.drop QA_TEMPLATE_PRE.data.length))
        "[\x7b\"output\": \"A\"\x7d]".data (CostAnalyzer.init 0 0) none 0
      = some ([JsonValue.obj [("output".data, JsonValue.str "A".data)]],
          ((CostAnalyzer.init 0 0).add_usage 0 0).1, none, 0) := by
  have h := C7_generator_raw_format_defaults.1 (fun _ => 0)
    (fun p => Except.ok (p.drop QA_TEMPLATE_PRE.data.length))
    "[\x7b\"output\": \"A\"\x7d]".data (CostAnalyzer.init 0 0) none 0 none 0
    "[\x7b\"output\": \"A\"\x7d]".data (by rfl) (by rfl)
  exact h.trans (by rfl)

theorem startswith_INCORRECT_not_CORRECT (u : List Char)
    (h : pyStartswith u "INCORRECT".data = true) :
    pyStartswith u "CORRECT".data = false := by
  cases u with
  | nil => simp [pyStartswith, List.isPrefixOf] at h
  | cons a us =>
    simp only [pyStartswith, List.isPrefixOf, Bool.and_eq_true, beq_iff_eq] at h ⊢
    obtain ⟨rfl, _⟩ := h
    simp [List.isPrefixOf]

/-- C8 counterexample: the response `"  CORRECT yes"` does not begin
with `CORRECT`, even case-insensitively, so by the claim it should be
classified `UNKNOWN`; the code strips whitespace before the prefix
check and classifies it `CORRECT`, slicing the explanation from the
raw, unstripped response. -/
theorem C8_counterexample_leading_whitespace :
    pyStartswith (pyUpper "  CORRECT yes".data) "CORRECT".data = false ∧
    (verify_qa_pair (fun _ => 0) (fun _ => Except.ok "  CORRECT yes".data)
        "c".data "q".data "a".data (CostAnalyzer.init 0 0) none 0).map (fun r => r.1)
      = some ⟨VerificationStatus.CORRECT, "CT yes".data⟩ :=
  ⟨rfl, rfl⟩

/-- C8 amended: classification is prefix-based and case-insensitive on
the whitespace-STRIPPED response: a stripped response beginning with
`CORRECT` yields status `CORRECT` with the raw response minus its first
7 characters, stripped, as explanation; beginning with `INCORRECT`
yields `INCORRECT` with the raw response minus 9 characters, stripped;
any other well-formed response yields `UNKNOWN` with a fixed
explanation; and a transport failure yields `ERROR` with the failure
message, leaving the ledger untouched. -/
theorem C8_classification_on_stripped_response :
    (∀ (tok : List Char → ℕ) (invoke : List Char → Except (List Char) (List Char))
        (context question answer : List Char) (ca : CostAnalyzer)
        (rl : Option RateLimiter) (clock : ℚ)
        (res : VerificationResult × CostAnalyzer × Option RateLimiter × ℚ)
        (resp : List Char),
      verify_qa_pair tok invoke context question answer ca rl clock = some res →
      invoke (verificationPrompt context question answer) = Except.ok resp →
      ((pyStartswith (pyUpper (pyStrip resp)) "CORRECT".data = true →
          res.1 = ⟨VerificationStatus.CORRECT, pyStrip (resp.drop 7)⟩) ∧
       (pyStartswith (pyUpper (pyStrip resp)) "INCORRECT".data = true →
          res.1 = ⟨VerificationStatus.INCORRECT, pyStrip (resp.drop 9)⟩) ∧
       (pyStartswith (pyUpper (pyStrip resp)) "CORRECT".data = false →
        pyStartswith (pyUpper (pyStrip resp)) "INCORRECT".data = false →
          res.1 = ⟨VerificationStatus.UNKNOWN,
            "Unexpected verification response".data⟩))) ∧
    (∀ (tok : List Char → ℕ) (invoke : List Char → Except (List Char) (List Char))
        (context question answer : List Char) (ca : CostAnalyzer)
        (rl : Option RateLimiter) (clock : ℚ)
        (res : VerificationResult × CostAnalyzer × Option RateLimiter × ℚ)
        (e : List Char),
      verify_qa_pair tok invoke context question answer ca rl clock = some res →
      invoke (verificationPrompt context question answer) = Except.error e →
      res.1 = ⟨VerificationStatus.ERROR, e⟩ ∧ res.2.1 = ca) := by
  constructor
  · intro tok invoke context question answer ca rl clock res resp hv hok
    simp only [verify_qa_pair, hok] at hv
    cases hls : limiterStep rl clock (tok (verificationPrompt context question answer)) with
    | none => rw [hls] at hv; simp at hv
    | some p =>
      obtain ⟨rl2, clock2⟩ := p
      rw [hls] at hv
      simp only [Option.some_inj] at hv
      refine ⟨?_, ?_, ?_⟩
      · intro hc
        rw [hc] at hv
        simp only [if_true] at hv
        rw [← hv]
      · intro hi
        have hc := startswith_INCORRECT_not_CORRECT _ hi
        rw [hc, hi] at hv
        simp only [Bool.false_eq_true, if_false, if_true] at hv
        rw [← hv]
      · intro hc hi
        rw [hc, hi] at hv
        simp only [Bool.false_eq_true, if_false] at hv
        rw [← hv]
  · intro tok invoke context question answer ca rl clock res e hv herr
    simp only [verify_qa_pair, herr] at hv
    cases hls : limiterStep rl clock (tok (verificationPrompt context question answer)) with
    | none => rw [hls] at hv; simp at hv
    | some p =>
      obtain ⟨rl2, clock2⟩ := p
      rw [hls] at hv
      simp only [Option.some_inj] at hv
      rw [← hv]
      exact ⟨rfl, rfl⟩

/-- Witness for C8 at the spec's three example responses and a failing
call. -/
theorem C8_classification_witness :
    (verify_qa_pair (fun _ => 0) (fun _ => Except.ok "CORRECT because X".data)
        "c".data "q".data "a".data (CostAnalyzer.init 0 0) none 0).map (fun r => r.1)
      = some ⟨VerificationStatus.CORRECT, "because X".data⟩ ∧
    (verify_qa_pair (fun _ => 0) (fun _ => Except.ok "INCORRECT because Y".data)
        "c".data "q".data "a".data (CostAnalyzer.init 0 0) none 0).map (fun r => r.1)
      = some ⟨VerificationStatus.INCORRECT, "because Y".data⟩ ∧
    (verify_qa_pair (fun _ => 0) (fun _ => Except.ok "maybe".data)
        "c".data "q".data "a".data (CostAnalyzer.init 0 0) none 0).map (fun r => r.1)
      = some ⟨VerificationStatus.UNKNOWN, "Unexpected verification response".data⟩ ∧
    (verify_qa_pair (fun _ => 0) (fun _ => Except.error "net down".data)
        "c".data "q".data "a".data (CostAnalyzer.init 0 0) none 0).map (fun r => r.1)
      = some ⟨VerificationStatus.ERROR, "net down".data⟩ := by
  refine ⟨?_, ?_, ?_, ?_⟩
  · have hv : verify_qa_pair (fun _ => 0)
        (fun _ => Except.ok "CORRECT because X".data)
        "c".data "q".data "a".data (CostAnalyzer.init 0 0) none 0
        = some (⟨VerificationStatus.CORRECT, "because X".data⟩,
            ((CostAnalyzer.init 0 0).add_verification_usage 0 0).1, none, 0) := rfl
    have h := (C8_classification_on_stripped_response.1 _ _ _ _ _ _ _ _ _
      "CORRECT because X".data hv rfl).1 rfl
    rw [hv]
    exact congrArg some (h.trans rfl)
  · have hv : verify_qa_pair (fun _ => 0)
        (fun _ => Except.ok "INCORRECT because Y".data)
        "c".data "q".data "a".data (CostAnalyzer.init 0 0) none 0
        = some (⟨VerificationStatus.INCORRECT, "because Y".data⟩,
            ((CostAnalyzer.init 0 0).add_verification_usage 0 0).1, none, 0) := rfl
    have h := ((C8_classification_on_stripped_response.1 _ _ _ _ _ _ _ _ _
      "INCORRECT because Y".data hv rfl).2).1 rfl
    rw [hv]
    exact congrArg some (h.trans rfl)
  · have hv : verify_qa_pair (fun _ => 0) (fun _ => Except.ok "maybe".data)
        "c".data "q".data "a".data (CostAnalyzer.init 0 0) none 0
        = some (⟨VerificationStatus.UNKNOWN, "Unexpected verification response".data⟩,
            ((CostAnalyzer.init 0 0).add_verification_usage 0 0).1, none, 0) := rfl
    have h := ((C8_classification_on_stripped_response.1 _ _ _ _ _ _ _ _ _
      "maybe".data hv rfl).2).2 rfl rfl
    rw [hv]
    exact congrArg some (h.trans rfl)
  · have hv : verify_qa_pair (fun _ => 0) (fun _ => Except.error "net down".data)
        "c".data "q".data "a".data (CostAnalyzer.init 0 0) none 0
        = some (⟨VerificationStatus.ERROR, "net down".data⟩,
            CostAnalyzer.init 0 0, none, 0) := rfl
    have h := (C8_classification_on_stripped_response.2 _ _ _ _ _ _ _ _ _
      "net down".data hv rfl).1
    rw [hv]
    exact congrArg some (h.trans rfl)

/-! ## Rate limiter lemmas -/

theorem windowSum_append (w : ℚ) (h1 h2 : List (ℚ × ℕ)) (t : ℚ) :
    windowSum w (h1 ++ h2) t = windowSum w h1 t + windowSum w h2 t := by
  simp [windowSum]

theorem windowSum_le_sumCounts (w : ℚ) (l : List (ℚ × ℕ)) (t : ℚ) :
    windowSum w l t ≤ sumCounts l := by
  induction l with
  | nil => simp [windowSum, sumCounts]
  | cons e rest ih =>
    simp only [windowSum, sumCounts, List.map_cons, List.sum_cons] at ih ⊢
    by_cases h : e.1 ≤ t ∧ t - e.1 < w
    · simp only [if_pos h]
      omega
    · simp only [if_neg h]
      omega

theorem windowSum_expired (w : ℚ) (l : List (ℚ × ℕ)) (T t : ℚ)
    (hexp : ∀ e ∈ l, w ≤ T - e.1) (hTt : T ≤ t) :
    windowSum w l t = 0 := by
  induction l with
  | nil => simp [windowSum]
  | cons e rest ih =>
    have he := hexp e (List.mem_cons_self e rest)
    have hnot : ¬ (t - e.1 < w) := by linarith
    simp only [windowSum, List.map_cons, List.sum_cons]
    rw [if_neg (fun hc => hnot hc.2)]
    simpa [windowSum] using ih (fun x hx => hexp x (List.mem_cons_of_mem e hx))

theorem windowSum_full (w : ℚ) (l : List (ℚ × ℕ)) (t : ℚ)
    (hin : ∀ e ∈ l, e.1 ≤ t ∧ t - e.1 < w) :
    windowSum w l t = sumCounts l := by
  induction l with
  | nil => simp [windowSum, sumCounts]
  | cons e rest ih =>
    simp only [windowSum, sumCounts, List.map_cons, List.sum_cons]
    rw [if_pos (hin e (List.mem_cons_self e rest))]
    have := ih (fun x hx => hin x (List.mem_cons_of_mem e hx))
    simp only [windowSum, sumCounts] at this
    omega

theorem sumCounts_append (l1 l2 : List (ℚ × ℕ)) :
    sumCounts (l1 ++ l2) = sumCounts l1 + sumCounts l2 := by
  simp [sumCounts]

theorem purgeOld_decomp (w now : ℚ) (l : List (ℚ × ℕ)) :
    ∃ d, l = d ++ purgeOld w now l ∧ ∀ e ∈ d, w ≤ now - e.1 := by
  refine ⟨l.takeWhile (fun e => decide (w ≤ now - e.1)), ?_, ?_⟩
  · rw [purgeOld, List.takeWhile_append_dropWhile]
  · intro e he
    simpa using List.mem_takeWhile_imp he

theorem purgeOld_sublist (w now : ℚ) (l : List (ℚ × ℕ)) :
    List.Sublist (purgeOld w now l) l :=
  List.dropWhile_sublist _

theorem purgeOld_unexpired (w now : ℚ) (l : List (ℚ × ℕ))
    (hs : l.Pairwise (fun a b => a.1 ≤ b.1)) :
    ∀ e ∈ purgeOld w now l, now - e.1 < w := by
  induction l with
  | nil => simp [purgeOld]
  | cons x xs ih =>
    by_cases hx : w ≤ now - x.1
    · have hstep : purgeOld w now (x :: xs) = purgeOld w now xs := by
        simp [purgeOld, List.dropWhile, hx]
      rw [hstep]
      exact ih hs.of_cons
    · have hstep : purgeOld w now (x :: xs) = x :: xs := by
        simp [purgeOld, List.dropWhile, hx]
      rw [hstep]
      intro e he
      rcases List.mem_cons.mp he with rfl | hmem
      · linarith [lt_of_not_le hx]
      · have hxe : x.1 ≤ e.1 := (List.pairwise_cons.mp hs).1 e hmem
        have := lt_of_not_le hx
        linarith

theorem RateLimit.wait_time_mono (rl : RateLimit) (now : ℚ) (c : ℕ)
    (rl2 : RateLimit) (t2 : ℚ) (hw : rl.wait now c = some (rl2, t2)) :
    now ≤ t2 := by
  unfold RateLimit.wait at hw
  dsimp only [] at hw
  split at hw
  · split at hw
    · exact absurd hw (by simp)
    · rename_i oldest_time c0 rest
      split at hw
      · rename_i hpos
        injection hw with hw1
        injection hw1 with _ hw2
        rw [← hw2]
        linarith
      · injection hw with hw1
        injection hw1 with _ hw2
        rw [← hw2]
  · injection hw with hw1
    injection hw1 with _ hw2
    rw [← hw2]

theorem appended_window_bound (rpm : ℕ) (dead live : List (ℚ × ℕ)) (tnew : ℚ)
    (hexp : ∀ e ∈ dead, 60 ≤ tnew - e.1)
    (hsum : sumCounts live + 1 ≤ rpm)
    (hbound : ∀ t, windowSum 60 (dead ++ live) t ≤ rpm) :
    ∀ t, windowSum 60 ((dead ++ live) ++ [(tnew, 1)]) t ≤ rpm := by
  intro t
  rw [windowSum_append]
  by_cases hc : tnew ≤ t ∧ t - tnew < 60
  · have hd : windowSum 60 dead t = 0 := windowSum_expired 60 dead tnew t hexp hc.1
    have hl : windowSum 60 live t ≤ sumCounts live := windowSum_le_sumCounts 60 live t
    have hnew : windowSum 60 [(tnew, 1)] t ≤ 1 := by
      simp only [windowSum, List.map_cons, List.map_nil, List.sum_cons, List.sum_nil]
      split <;> simp
    rw [windowSum_append, hd]
    omega
  · have hnew : windowSum 60 [(tnew, 1)] t = 0 := by
      simp only [windowSum, List.map_cons, List.map_nil, List.sum_cons, List.sum_nil]
      rw [if_neg hc]
      simp
    rw [hnew]
    simpa using hbound t

/-- One request-window admission with amount 1 preserves the ceiling
invariant: the updated entry deque stays sorted, expired-only entries
are dropped from the history's live suffix, and the window sum of the
extended history never exceeds the limit at any moment. -/
theorem RateLimit.wait_one_ceiling (rpm : ℕ)
    (rl : RateLimit) (now : ℚ)
    (hwin : rl.window = 60) (hlim : rl.limit = rpm)
    (hcounts : ∀ e ∈ rl.entries, e.2 = 1)
    (hsorted : rl.entries.Pairwise (fun a b => a.1 ≤ b.1))
    (hle : ∀ e ∈ rl.entries, e.1 ≤ now)
    (hist : List (ℚ × ℕ))
    (hdead : ∃ d, hist = d ++ rl.entries ∧ ∀ e ∈ d, 60 ≤ now - e.1)
    (hbound : ∀ t, windowSum 60 hist t ≤ rpm)
    (rl2 : RateLimit) (t2 : ℚ)
    (hw : rl.wait now 1 = some (rl2, t2)) :
    rl2.window = 60 ∧ rl2.limit = rpm ∧
    (∀ e ∈ rl2.entries, e.2 = 1) ∧
    rl2.entries.Pairwise (fun a b => a.1 ≤ b.1) ∧
    (∀ e ∈ rl2.entries, e.1 ≤ t2) ∧
    now ≤ t2 ∧
    (∃ d, hist ++ [(t2, 1)] = d ++ rl2.entries ∧ ∀ e ∈ d, 60 ≤ t2 - e.1) ∧
    (∀ t, windowSum 60 (hist ++ [(t2, 1)]) t ≤ rpm) := by
  obtain ⟨dh, hhist, hdh⟩ := hdead
  obtain ⟨d0, hent, hd0⟩ := purgeOld_decomp 60 now rl.entries
  have hPsub := purgeOld_sublist 60 now rl.entries
  have hPcounts : ∀ e ∈ purgeOld 60 now rl.entries, e.2 = 1 :=
    fun e he => hcounts e (hPsub.mem he)
  have hPsorted : (purgeOld 60 now rl.entries).Pairwise (fun a b => a.1 ≤ b.1) :=
    hsorted.sublist hPsub
  have hPle : ∀ e ∈ purgeOld 60 now rl.entries, e.1 ≤ now :=
    fun e he => hle e (hPsub.mem he)
  have hPunexp := purgeOld_unexpired 60 now rl.entries hsorted
  have histP : hist = (dh ++ d0) ++ purgeOld 60 now rl.entries := by
    rw [hhist]
    conv_lhs => rw [hent]
    simp [List.append_assoc]
  have hdexp : ∀ e ∈ dh ++ d0, 60 ≤ now - e.1 := by
    intro e he
    rcases List.mem_append.mp he with h | h
    · exact hdh e h
    · exact hd0 e h
  have htot_le : sumCounts (purgeOld 60 now rl.entries) ≤ rpm := by
    have h1 := hbound now
    rw [histP, windowSum_append,
      windowSum_expired 60 (dh ++ d0) now now hdexp (le_refl now),
      windowSum_full 60 (purgeOld 60 now rl.entries) now
        (fun e he => ⟨hPle e he, hPunexp e he⟩)] at h1
    simpa using h1
  unfold RateLimit.wait at hw
  dsimp only [] at hw
  rw [hwin, hlim] at hw
  by_cases hover : rpm < sumCounts (purgeOld 60 now rl.entries) + 1
  · rw [if_pos hover] at hw
    cases hPe : purgeOld 60 now rl.entries with
    | nil =>
      rw [hPe] at hw
      exact absurd hw (by simp)
    | cons head tail =>
      obtain ⟨ot, oc⟩ := head
      rw [hPe] at hw hPcounts hPsorted hPle hPunexp htot_le histP
      dsimp only [] at hw
      have hhead_unexp : now - ot < 60 :=
        hPunexp (ot, oc) (List.mem_cons_self _ _)
      have hpos : 0 < 60 - (now - ot) := by linarith
      rw [if_pos hpos] at hw
      injection hw with hw1
      injection hw1 with hwrl hwt
      subst hwrl
      subst hwt
      have hoc : oc = 1 := hPcounts (ot, oc) (List.mem_cons_self _ _)
      have hnow2 : now + (60 - (now - ot)) = ot + 60 := by ring
      have hle2 : now ≤ now + (60 - (now - ot)) := by linarith
      have hdrophead : purgeOld 60 (now + (60 - (now - ot))) ((ot, oc) :: tail)
          = purgeOld 60 (now + (60 - (now - ot))) tail := by
        have hex : (60 : ℚ) ≤ now + (60 - (now - ot)) - ot := by linarith
        simp [purgeOld, List.dropWhile_cons, hex]
      obtain ⟨d2, htail, hd2⟩ := purgeOld_decomp 60 (now + (60 - (now - ot))) tail
      have hsum2 : sumCounts (purgeOld 60 (now + (60 - (now - ot))) tail) + 1 ≤ rpm := by
        have h1 : sumCounts ((ot, oc) :: tail)
            = oc + sumCounts tail := by simp [sumCounts]
        have h2 : sumCounts tail
            = sumCounts d2 + sumCounts (purgeOld 60 (now + (60 - (now - ot))) tail) := by
          conv_lhs => rw [htail]
          rw [sumCounts_append]
        omega
      have htail_sub : List.Sublist (purgeOld 60 (now + (60 - (now - ot))) tail) tail :=
        purgeOld_sublist _ _ _
      have histsplit : hist
          = ((dh ++ d0) ++ ((ot, oc) :: d2))
            ++ purgeOld 60 (now + (60 - (now - ot))) tail := by
        rw [histP]
        conv_lhs => rw [htail]
        simp [List.append_assoc]
      have hdead2 : ∀ e ∈ (dh ++ d0) ++ ((ot, oc) :: d2),
          60 ≤ (now + (60 - (now - ot))) - e.1 := by
        intro e he
        rcases List.mem_append.mp he with h | h
        · have := hdexp e h
          linarith
        · rcases List.mem_cons.mp h with rfl | h2
          · simp only
            linarith
          · exact hd2 e h2
      have hbound2 : ∀ t, windowSum 60
          (((dh ++ d0) ++ ((ot, oc) :: d2))
            ++ purgeOld 60 (now + (60 - (now - ot))) tail) t ≤ rpm := by
        intro t
        rw [← histsplit]
        exact hbound t
      have hfinal := appended_window_bound rpm ((dh ++ d0) ++ ((ot, oc) :: d2))
        (purgeOld 60 (now + (60 - (now - ot))) tail) (now + (60 - (now - ot)))
        hdead2 hsum2 hbound2
      refine ⟨rfl, rfl, ?_, ?_, ?_, hle2, ?_, ?_⟩
      · intro e he
        simp only at he
        rw [hdrophead] at he
        rcases List.mem_append.mp he with h | h
        · exact hPcounts e (List.mem_cons_of_mem _ (htail_sub.mem h))
        · rw [List.mem_singleton.mp h]
      · simp only
        rw [hdrophead]
        refine List.pairwise_append.mpr ⟨?_, List.pairwise_singleton _ _, ?_⟩
        · exact (hPsorted.of_cons).sublist htail_sub
        · intro a ha b hb
          rw [List.mem_singleton.mp hb]
          have := hPle a (List.mem_cons_of_mem _ (htail_sub.mem ha))
          simp only
          linarith
      · intro e he
        simp only at he
        rw [hdrophead] at he
        rcases List.mem_append.mp he with h | h
        · have := hPle e (List.mem_cons_of_mem _ (htail_sub.mem h))
          linarith
        · rw [List.mem_singleton.mp h]
      · refine ⟨(dh ++ d0) ++ ((ot, oc) :: d2), ?_, ?_⟩
        · simp only
          rw [hdrophead, histsplit]
          simp [List.append_assoc]
        · exact hdead2
      · intro t
        rw [histsplit]
        simpa [List.append_assoc] using hfinal t
  · rw [if_neg hover] at hw
    injection hw with hw1
    injection hw1 with hwrl hwt
    subst hwrl
    subst hwt
    have hsum : sumCounts (purgeOld 60 now rl.entries) + 1 ≤ rpm := by omega
    have hbound2 : ∀ t, windowSum 60
        ((dh ++ d0) ++ purgeOld 60 now rl.entries) t ≤ rpm := by
      intro t
      rw [← histP]
      exact hbound t
    have hfinal := appended_window_bound rpm (dh ++ d0)
      (purgeOld 60 now rl.entries) now hdexp hsum hbound2
    refine ⟨rfl, rfl, ?_, ?_, ?_, le_refl now, ?_, ?_⟩
    · intro e he
      simp only at he
      rcases List.mem_append.mp he with h | h
      · exact hPcounts e h
      · rw [List.mem_singleton.mp h]
    · simp only
      refine List.pairwise_append.mpr ⟨hPsorted, List.pairwise_singleton _ _, ?_⟩
      · intro a ha b hb
        rw [List.mem_singleton.mp hb]
        have := hPle a ha
        simp only
        linarith
    · intro e he
      simp only at he
      rcases List.mem_append.mp he with h | h
      · exact hPle e h
      · rw [List.mem_singleton.mp h]
    · refine ⟨dh ++ d0, ?_, hdexp⟩
      simp only
      rw [histP]
      simp [List.append_assoc]
    · intro t
      rw [histP]
      simpa [List.append_assoc] using hfinal t

/-- The request-window invariant carried along a trace: fixed window
and limit, unit amounts, sorted live entries bounded by the clock, the
history splitting into expired entries followed by the live deque, and
the ceiling itself. -/
def ReqInv (rpm : ℕ) (st : LimiterTraceState) : Prop :=
  st.limiter.request_limit.window = 60 ∧
  st.limiter.request_limit.limit = rpm ∧
  (∀ e ∈ st.limiter.request_limit.entries, e.2 = 1) ∧
  st.limiter.request_limit.entries.Pairwise (fun a b => a.1 ≤ b.1) ∧
  (∀ e ∈ st.limiter.request_limit.entries, e.1 ≤ st.clock) ∧
  (∃ d, st.reqHist = d ++ st.limiter.request_limit.entries ∧
    ∀ e ∈ d, 60 ≤ st.clock - e.1) ∧
  (∀ t, windowSum 60 st.reqHist t ≤ rpm)

theorem admitStep_ReqInv (rpm : ℕ) (st st2 : LimiterTraceState)
    (hinv : ReqInv rpm st) (delay : ℚ) (hd : 0 ≤ delay) (tokens : ℕ)
    (hstep : admitStep st delay tokens = some st2) :
    ReqInv rpm st2 := by
  obtain ⟨hwin, hlim, hcounts, hsorted, hle, hdead, hbound⟩ := hinv
  unfold admitStep at hstep
  dsimp only [] at hstep
  cases hwq : st.limiter.request_limit.wait (st.clock + delay) 1 with
  | none => rw [hwq] at hstep; exact absurd hstep (by simp)
  | some p =>
    obtain ⟨rq, t1⟩ := p
    rw [hwq] at hstep
    dsimp only [] at hstep
    cases hwt : st.limiter.token_limit.wait t1 tokens with
    | none => rw [hwt] at hstep; exact absurd hstep (by simp)
    | some q =>
      obtain ⟨tk, t2⟩ := q
      rw [hwt] at hstep
      dsimp only [] at hstep
      injection hstep with hstep2
      subst hstep2
      have hnow : st.clock ≤ st.clock + delay := by linarith
      have hle2 : ∀ e ∈ st.limiter.request_limit.entries, e.1 ≤ st.clock + delay :=
        fun e he => le_trans (hle e he) hnow
      have hdead2 : ∃ d, st.reqHist = d ++ st.limiter.request_limit.entries ∧
          ∀ e ∈ d, 60 ≤ (st.clock + delay) - e.1 := by
        obtain ⟨d, hd1, hd2⟩ := hdead
        exact ⟨d, hd1, fun e he => by have := hd2 e he; linarith⟩
      obtain ⟨hw3, hl3, hc3, hs3, hle3, hnow3, hdead3, hbound3⟩ :=
        RateLimit.wait_one_ceiling rpm st.limiter.request_limit
          (st.clock + delay) hwin hlim hcounts hsorted hle2 st.reqHist hdead2
          hbound rq t1 hwq
      have ht12 := RateLimit.wait_time_mono st.limiter.token_limit t1 tokens tk t2 hwt
      refine ⟨hw3, hl3, hc3, hs3, ?_, ?_, ?_⟩
      · exact fun e he => le_trans (hle3 e he) ht12
      · obtain ⟨d, hd1, hd2⟩ := hdead3
        exact ⟨d, hd1, fun e he => by have := hd2 e he; linarith⟩
      · exact hbound3

theorem runAdmits_ReqInv (rpm : ℕ) :
    ∀ (trace : List (ℚ × ℕ)) (st : LimiterTraceState), ReqInv rpm st →
      (∀ e ∈ trace, 0 ≤ e.1) →
      ∀ stf, runAdmits st trace = some stf → ReqInv rpm stf := by
  intro trace
  induction trace with
  | nil =>
    intro st hinv _ stf hrun
    simp only [runAdmits, Option.some_inj] at hrun
    rw [← hrun]
    exact hinv
  | cons head rest ih =>
    obtain ⟨d, tks⟩ := head
    intro st hinv hdel stf hrun
    unfold runAdmits at hrun
    cases hstep : admitStep st d tks with
    | none => rw [hstep] at hrun; exact absurd hrun (by simp)
    | some st2 =>
      rw [hstep] at hrun
      have hd0 : (0 : ℚ) ≤ d := hdel (d, tks) (List.mem_cons_self _ _)
      exact ih st2 (admitStep_ReqInv rpm st st2 hinv d hd0 tks hstep)
        (fun e he => hdel e (List.mem_cons_of_mem _ he)) stf hrun

/-- C1 counterexample: with 5 requests and 10 tokens per minute, the
admit trace `(delay 0, 1 token), (delay 1, 9 tokens), (delay 1, 9
tokens)` drives the token window to 18 token-units inside one trailing
60-second window — the third call sleeps only until the OLDEST entry
expires and then appends without rechecking, so the 9-token entry still
inside the window plus the new 9-token entry exceed the 10-token
ceiling. -/
theorem C1_counterexample_token_window_overshoot :
    (runAdmits (initLimiterTrace 5 10) [(0, 1), (1, 9), (1, 9)]).map
        (fun st => windowSum 60 st.tokHist 60)
      = some 18 ∧ 10 < 18 := by
  refine ⟨?_, by norm_num⟩
  simp [runAdmits, admitStep, RateLimit.wait, RateLimiter.init, initLimiterTrace,
    purgeOld, sumCounts, windowSum]
  norm_num

/-- C1 amended: the REQUEST window keeps its ceiling — for every admit
trace with non-negative inter-call delays that runs to completion, at
every moment the number of request entries inside any trailing
60-second window is at most the configured requests-per-minute limit
(each admission records amount 1, and the post-sleep re-purge always
removes at least the expired oldest entry). The token window does NOT
share this guarantee. -/
theorem C1_request_window_ceiling (rpm tpm : ℕ)
    (trace : List (ℚ × ℕ)) (hdelays : ∀ e ∈ trace, 0 ≤ e.1)
    (stf : LimiterTraceState)
    (hrun : runAdmits (initLimiterTrace rpm tpm) trace = some stf) (t : ℚ) :
    windowSum 60 stf.reqHist t ≤ rpm := by
  have hinit : ReqInv rpm (initLimiterTrace rpm tpm) := by
    refine ⟨rfl, rfl, ?_, ?_, ?_, ⟨[], rfl, ?_⟩, ?_⟩ <;>
      simp [initLimiterTrace, RateLimiter.init, windowSum]
  have hfin := runAdmits_ReqInv rpm trace (initLimiterTrace rpm tpm) hinit hdelays stf hrun
  exact hfin.2.2.2.2.2.2 t

/-- Witness for C1's amended request-window ceiling on a concrete
one-call trace. -/
theorem C1_request_ceiling_witness :
    windowSum 60 [((0 : ℚ), 1)] 0 ≤ 2 := by
  have hrun : runAdmits (initLimiterTrace 2 10) [(0, 1)]
      = some ⟨⟨⟨2, 60, [(0, 1)]⟩, ⟨10, 60, [(0, 1)]⟩⟩, 0, [(0, 1)], [(0, 1)]⟩ := by
    simp [runAdmits, admitStep, RateLimit.wait, RateLimiter.init, initLimiterTrace,
      purgeOld, sumCounts]
  exact C1_request_window_ceiling 2 10 [(0, 1)] (by norm_num)
    ⟨⟨⟨2, 60, [(0, 1)]⟩, ⟨10, 60, [(0, 1)]⟩⟩, 0, [(0, 1)], [(0, 1)]⟩ hrun 0

end DatasetMiner
